import Mathlib

/-!
Shallow embedding of the docChat retrieval pipeline
(backend/app/services: document_processor.py, embedding_service.py,
vector_search.py, llm_service.py, chat_service.py) and proofs about it.

Conventions of the embedding:
* Python strings are `List Char`; chunk ids are Lean `String`s.
* Python floats are modelled as `ℚ`; the one float computation that is not
  exact rational arithmetic (numpy cosine similarity on equal-dimension
  vectors) is an external library call and is passed in as an abstract
  function `cosine : List ℚ → List ℚ → Option ℚ`, `none` modelling a raised
  exception.
* Exceptions are modelled by `Option`/`Except`; external collaborators
  (sentence-transformer model, sklearn vectorizer, database connection,
  Azure LLM) are abstract parameters whose `none`/`.error` values model
  their failure.
* `uuid.uuid4().hex[:8]` is modelled by a supply `uuids : Nat → String`,
  one fresh fragment per saved chunk (the source draws one per save, and
  `chunk_index` increments exactly once per save).
-/

namespace DocChat

/-! ### Text primitives (document_processor.py) -/

/-- The sentence delimiters of `_split_into_sentences`: the regex class in
the source splits on runs of the characters in `[.!?]+`. -/
def isSentenceDelim (c : Char) : Bool := c == '.' || c == '!' || c == '?'

/-- Worker for `re.split(r'[.!?]+', text)`: splits at maximal runs of
sentence delimiters.  `acc` is the (reversed) fragment under construction
and `inRun` records that the previous character was a delimiter, so that a
run of delimiters produces a single split point. -/
def splitRunsGo : List Char → List Char → Bool → List (List Char)
  | [], acc, _ => [acc.reverse]
  | c :: rest, acc, inRun =>
    if isSentenceDelim c then
      if inRun then splitRunsGo rest acc true
      else acc.reverse :: splitRunsGo rest [] true
    else splitRunsGo rest (c :: acc) false

/-- Model of `re.split(r'[.!?]+', text)` in `_split_into_sentences`. -/
def split_on_delim_runs (text : List Char) : List (List Char) :=
  splitRunsGo text [] false

/-- Model of Python `str.strip()`: drop whitespace from both ends. -/
def pyStrip (s : List Char) : List Char :=
  ((s.dropWhile Char.isWhitespace).reverse.dropWhile Char.isWhitespace).reverse

/-- `_split_into_sentences` from document_processor.py: split on delimiter
runs, strip each fragment, and keep it only when it is non-empty and longer
than 10 characters (`if sentence and len(sentence) > 10`). -/
def split_into_sentences (text : List Char) : List (List Char) :=
  (split_on_delim_runs text).foldl
    (fun cleaned fragment =>
      let sentence := pyStrip fragment
      if sentence ≠ [] ∧ 10 < sentence.length then cleaned ++ [sentence] else cleaned)
    []

/-- Model of Python `" ".join(xs)`. -/
def joinSp : List (List Char) → List Char
  | [] => []
  | [s] => s
  | s :: rest => s ++ ' ' :: joinSp rest

/-- The last `k` elements of a list, as Python `xs[-k:]` for `k ≥ 1`. -/
def lastN (k : Nat) (l : List α) : List α := l.drop (l.length - k)

/-! ### Chunking (document_processor.py, chunk_text) -/

/-- A page handed to `chunk_text`: the dict with keys page_number, text. -/
structure Page where
  pageNumber : Int
  text : List Char
deriving DecidableEq

/-- A chunk as built by `chunk_text`.  The source's `chunk_data` dict stores
`sentence_count = len(current_sentences)`; here the field `sentences`
records `current_sentences` itself, so `sentence_count` is
`sentences.length`. -/
structure Chunk where
  chunkId : String
  chunkIndex : Nat
  content : List Char
  pageNumber : Int
  sentences : List (List Char)
deriving DecidableEq

/-- The source's `sentence_count` field. -/
def Chunk.sentenceCount (c : Chunk) : Nat := c.sentences.length

/-- All the fields of a chunk except its (uuid-bearing) `chunk_id`. -/
def Chunk.core (c : Chunk) : Nat × List Char × Int × List (List Char) :=
  (c.chunkIndex, c.content, c.pageNumber, c.sentences)

/-- The loop state of `chunk_text`: the chunks saved so far, the running
`chunk_index`, and the pending `current_chunk` / `current_sentences`. -/
structure ChunkState where
  chunks : List Chunk
  chunkIndex : Nat
  currentChunk : List Char
  currentSentences : List (List Char)

/-- The chunk id `f"chunk_{chunk_index}_{uuid.uuid4().hex[:8]}"`. -/
def mkChunkId (idx : Nat) (uuidFrag : String) : String :=
  "chunk_" ++ toString idx ++ "_" ++ uuidFrag

/-- The save block of `chunk_text` (`if current_chunk.strip(): ...`),
used both when a sentence overflows and for the final flush per page. -/
def saveChunk (pageNumber : Int) (uuids : Nat → String) (st : ChunkState) : ChunkState :=
  if pyStrip st.currentChunk ≠ [] then
    { st with
      chunks := st.chunks ++
        [{ chunkId := mkChunkId st.chunkIndex (uuids st.chunkIndex),
           chunkIndex := st.chunkIndex,
           content := pyStrip st.currentChunk,
           pageNumber := pageNumber,
           sentences := st.currentSentences }],
      chunkIndex := st.chunkIndex + 1 }
  else st

/-- The body of `chunk_text`'s inner sentence loop.  `proposedLen` is
`len(current_chunk + " " + sentence)` (one separator even when the current
chunk is empty).  On overflow the current chunk is saved, the new chunk is
seeded with the last `max(1, chunk_overlap // 100)` sentences when
`chunk_overlap > 0 and current_sentences`, and the overflowing sentence is
appended. -/
def stepSentence (chunkSize chunkOverlap : Nat) (uuids : Nat → String) (pageNumber : Int)
    (st : ChunkState) (sentence : List Char) : ChunkState :=
  let proposedLen := (st.currentChunk ++ ' ' :: sentence).length
  if proposedLen ≤ chunkSize then
    { st with
      currentChunk := if st.currentChunk = [] then sentence
                      else st.currentChunk ++ ' ' :: sentence,
      currentSentences := st.currentSentences ++ [sentence] }
  else
    let st1 := saveChunk pageNumber uuids st
    let seed :=
      if 0 < chunkOverlap ∧ st.currentSentences ≠ [] then
        let overlapCount := max 1 (chunkOverlap / 100)
        if overlapCount < st.currentSentences.length then
          lastN overlapCount st.currentSentences
        else st.currentSentences
      else []
    { st1 with
      currentChunk := if joinSp seed = [] then sentence
                      else joinSp seed ++ ' ' :: sentence,
      currentSentences := seed ++ [sentence] }

/-- One iteration of `chunk_text`'s page loop: split the page into
sentences, run the sentence loop from a fresh `current_chunk`, and flush
the last chunk.  Returns the chunk list so far and the next chunk index. -/
def chunkPage (chunkSize chunkOverlap : Nat) (uuids : Nat → String) (page : Page)
    (startIndex : Nat) : List Chunk × Nat :=
  let sentences := split_into_sentences page.text
  let st :=
    sentences.foldl (stepSentence chunkSize chunkOverlap uuids page.pageNumber)
      ⟨[], startIndex, [], []⟩
  let stF := saveChunk page.pageNumber uuids st
  (stF.chunks, stF.chunkIndex)

/-- `chunk_text(pages, chunk_size, chunk_overlap)` from
document_processor.py, with the uuid supply made explicit. -/
def chunk_text (pages : List Page) (chunkSize chunkOverlap : Nat)
    (uuids : Nat → String) : List Chunk :=
  (pages.foldl
    (fun acc page =>
      let pr := chunkPage chunkSize chunkOverlap uuids page acc.2
      (acc.1 ++ pr.1, pr.2))
    ([], 0)).1

/-! ### Embedding service (embedding_service.py) -/

/-- Worker for Python `str.split()`: split on whitespace runs, dropping
empty fragments. -/
def splitWsGo : List Char → List Char → List (List Char)
  | [], acc => if acc = [] then [] else [acc.reverse]
  | c :: rest, acc =>
    if c.isWhitespace then
      if acc = [] then splitWsGo rest [] else acc.reverse :: splitWsGo rest []
    else splitWsGo rest (c :: acc)

/-- `text.lower().split()` as used by `_generate_basic_embeddings`. -/
def pyWords (t : List Char) : List (List Char) := splitWsGo (t.map Char.toLower) []

/-- `_generate_basic_embeddings`: build a vocabulary from the batch's own
words, count occurrences per text, and L1-normalize (`sum(embedding) or 1`
guards the empty case).  The source enumerates a Python set; the
enumeration order is unspecified there and is modelled here as first
occurrence order. -/
def generate_basic_embeddings (texts : List (List Char)) : List (List ℚ) :=
  let vocab := (texts.foldl (fun acc t => acc ++ pyWords t) []).dedup
  texts.map (fun t =>
    let ws := pyWords t
    let embedding : List ℚ := vocab.map (fun w => (ws.count w : ℚ))
    let total : ℚ := if embedding.sum = 0 then 1 else embedding.sum
    embedding.map (fun c => c / total))

/-- `generate_embeddings(texts, method)`.  The sentence-transformer
strategy is `stModel`: `none` when the model failed to load,
`some none` when `encode` raised, `some (some vs)` on success.  The TF-IDF
strategy (`_generate_tfidf_embeddings`, an sklearn call) is `tfidfResult`:
`none` when it raised.  Each failure falls through to the next strategy;
strategy 3 is `generate_basic_embeddings` and is not guarded by `method`. -/
def generate_embeddings (texts : List (List Char)) (method : String)
    (stModel : Option (Option (List (List ℚ))))
    (tfidfResult : Option (List (List ℚ))) : List (List ℚ) :=
  if texts = [] then []
  else
    match (if method = "auto" ∨ method = "sentence_transformer" then stModel else none) with
    | some (some result) => result
    | _ =>
      match (if method = "auto" ∨ method = "tfidf" then tfidfResult else none) with
      | some result => result
      | none => generate_basic_embeddings texts

/-- `generate_query_embedding(query)`.  `fetchedChunkTexts` is the outcome
of `SELECT content FROM document_embeddings` (`none`: the fetch raised).
`fit` models constructing a fresh
`TfidfVectorizer(max_features=384, stop_words='english', ngram_range=(1,2))`
and fitting it (`none`: `fit` raised); `transform` models
`vectorizer.transform`, returning a matrix as a list of row vectors.  Any
failure lands in the function's `except` and yields `[]`; so does an empty
corpus, and so does an empty transform result (`toarray()[0]` raising). -/
def generate_query_embedding {V : Type} (fit : List (List Char) → Option V)
    (transform : V → List (List Char) → Option (List (List ℚ)))
    (fetchedChunkTexts : Option (List (List Char))) (query : List Char) : List ℚ :=
  match fetchedChunkTexts with
  | none => []
  | some chunkTexts =>
    if chunkTexts = [] then []
    else
      match fit (chunkTexts ++ [query]) with
      | none => []
      | some vectorizer =>
        match transform vectorizer [query] with
        | none => []
        | some [] => []
        | some (v :: _) => v

/-- `_fallback_similarity`: 0.1 when both vectors have non-zero L1 mass,
else 0.  (Its own `except: return 0.05` branch is unreachable: the body is
pure arithmetic on lists of numbers.) -/
def fallback_similarity (embedding1 embedding2 : List ℚ) : ℚ :=
  let sum1 := (embedding1.map (fun x => |x|)).sum
  let sum2 := (embedding2.map (fun x => |x|)).sum
  if 0 < sum1 ∧ 0 < sum2 then 1/10 else 0

/-- `cosine_similarity_score`: on a dimension mismatch, fall back; on equal
dimensions call the numpy/sklearn cosine (abstract parameter `cosine`,
`none` modelling a raised exception, which the source catches and answers
with the fallback). -/
def cosine_similarity_score (cosine : List ℚ → List ℚ → Option ℚ)
    (embedding1 embedding2 : List ℚ) : ℚ :=
  if embedding1.length ≠ embedding2.length then fallback_similarity embedding1 embedding2
  else
    match cosine embedding1 embedding2 with
    | some s => s
    | none => fallback_similarity embedding1 embedding2

/-! ### Vector search (vector_search.py) -/

/-- One row of the document_embeddings table.  `embedding` is an `Option`:
`none` models a malformed row whose embedding value cannot be read as a
vector, making `len(chunk_embedding)` raise inside the per-candidate
`try` block; rows written by this pipeline always carry `some`. -/
structure StoredRecord where
  documentId : String
  chunkId : String
  chunkIndex : Nat
  content : List Char
  embedding : Option (List ℚ)
  pageNumber : Option Int
deriving DecidableEq

/-- A search hit as assembled by `search_similar_chunks`. -/
structure SearchHit where
  chunkId : String
  content : List Char
  pageNumber : Option Int
  documentId : String
  similarity : ℚ
deriving DecidableEq

/-- The comparator of `results.sort(key=lambda x: x['similarity'], reverse=True)`:
`a` may precede `b` when its similarity is at least `b`'s. -/
def hitLE (a b : SearchHit) : Bool := decide (b.similarity ≤ a.similarity)

/-- The SQL candidate set: all rows, filtered by `"documentId" = ANY(...)`
only when `if document_ids:` is truthy, i.e. when a non-empty list was
supplied. -/
def scopedRows (db : List StoredRecord) (documentIds : Option (List String)) :
    List StoredRecord :=
  match documentIds with
  | some ids => if ids ≠ [] then db.filter (fun r => ids.contains r.documentId) else db
  | none => db

/-- The scoring loop of `search_similar_chunks`: each candidate is scored
inside a `try`; a row whose embedding cannot be read is skipped, a scored
row is appended when its similarity reaches the threshold. -/
def collectHits (cosine : List ℚ → List ℚ → Option ℚ) (queryEmbedding : List ℚ)
    (threshold : ℚ) (rows : List StoredRecord) : List SearchHit :=
  rows.foldl
    (fun results row =>
      match row.embedding with
      | none => results
      | some chunkEmbedding =>
        let similarity := cosine_similarity_score cosine queryEmbedding chunkEmbedding
        if threshold ≤ similarity then
          results ++ [{ chunkId := row.chunkId, content := row.content,
                        pageNumber := row.pageNumber, documentId := row.documentId,
                        similarity := similarity }]
        else results)
    []

/-- `search_similar_chunks(query_embedding, document_ids, limit,
similarity_threshold)`.  `fetchOk = false` models the database fetch
raising, which the outer `except` turns into `[]`.  Python's stable
`list.sort(reverse=True)` is modelled by the stable `List.mergeSort` with
comparator `hitLE`. -/
def search_similar_chunks (cosine : List ℚ → List ℚ → Option ℚ) (db : List StoredRecord)
    (fetchOk : Bool) (queryEmbedding : List ℚ) (documentIds : Option (List String))
    (limit : Nat) (similarityThreshold : ℚ) : List SearchHit :=
  if fetchOk then
    let rows := scopedRows db documentIds
    if rows.length = 0 then []
    else ((collectHits cosine queryEmbedding similarityThreshold rows).mergeSort hitLE).take limit
  else []

/-- The record written for one chunk by `store_embeddings_in_database`. -/
def chunkRecord (documentId : String) (c : Chunk) (embedding : List ℚ) : StoredRecord :=
  { documentId := documentId, chunkId := c.chunkId, chunkIndex := c.chunkIndex,
    content := c.content, embedding := some embedding, pageNumber := some c.pageNumber }

/-- The effect of the INSERT ... ON CONFLICT ("chunkId") DO UPDATE SET
content, embedding, "pageNumber" statement on the table: replace those
three columns in place when the chunk id exists, else append the row. -/
def upsertRecord (db : List StoredRecord) (r : StoredRecord) : List StoredRecord :=
  if db.any (fun x => x.chunkId == r.chunkId) then
    db.map (fun x =>
      if x.chunkId == r.chunkId then
        { x with content := r.content, embedding := r.embedding, pageNumber := r.pageNumber }
      else x)
  else db ++ [r]

/-- `store_embeddings_in_database(document_id, chunks, embeddings)`:
raises `ValueError` when the counts differ, else upserts the zipped pairs
in order. -/
def store_embeddings_in_database (documentId : String) (chunks : List Chunk)
    (embeddings : List (List ℚ)) (db : List StoredRecord) :
    Except String (List StoredRecord) :=
  if chunks.length ≠ embeddings.length then
    Except.error "Number of chunks and embeddings must match"
  else
    Except.ok ((chunks.zip embeddings).foldl
      (fun d ce => upsertRecord d (chunkRecord documentId ce.1 ce.2)) db)

/-- The ingestion path of `process_document_background` (documents.py)
after text extraction: chunk the pages, embed the chunk contents
(`embed` standing for `generate_embeddings` with its strategy outcomes
fixed by the configuration), and store.  `chunks = []` is the
"Failed to create chunks from document" failure. -/
def process_and_store (documentId : String) (pages : List Page)
    (chunkSize chunkOverlap : Nat) (uuids : Nat → String)
    (embed : List (List Char) → List (List ℚ)) (db : List StoredRecord) :
    Except String (List StoredRecord) :=
  let chunks := chunk_text pages chunkSize chunkOverlap uuids
  if chunks = [] then Except.error "Failed to create chunks from document"
  else store_embeddings_in_database documentId chunks
    (embed (chunks.map (fun c => c.content))) db

/-! ### LLM service and chat pipeline (llm_service.py, chat_service.py) -/

/-- A citation entry built by `generate_response`. -/
structure Citation where
  chunkId : String
  pageNumber : Option Int
  similarity : ℚ
deriving DecidableEq

/-- The dict returned by `generate_response`. -/
structure LLMResult where
  response : List Char
  citations : List Citation
  hasContext : Bool
deriving DecidableEq

/-- The dict returned by `process_chat_message`. -/
structure ChatReply where
  message : List Char
  citations : List Citation
  hasContext : Bool
  chunksFound : Nat
deriving DecidableEq

/-- The canned no-context answer of `generate_response`. -/
def noContextMessage : List Char :=
  ("I couldn't find specific information about that in your document. " ++
   "This might be because: 1) The content wasn't properly extracted from the PDF, " ++
   "2) The question needs different keywords, or " ++
   "3) The information isn't in the uploaded document. " ++
   "Try rephrasing your question or re-uploading the document.").toList

/-- Join with a fixed separator, as `sep.join(parts)`. -/
def joinWith (sep : List Char) : List (List Char) → List Char
  | [] => []
  | [s] => s
  | s :: rest => s ++ sep ++ joinWith sep rest

/-- The context block of the RAG prompt: numbered chunk contents joined by
blank lines. -/
def buildContextText (contextChunks : List SearchHit) : List Char :=
  joinWith ("\n\n".toList)
    (contextChunks.enum.map (fun ic =>
      ("Chunk ").toList ++ (toString (ic.1 + 1)).toList ++ (":\n").toList ++ ic.2.content))

/-- The RAG prompt assembled by `generate_response`. -/
def ragPrompt (query : List Char) (contextChunks : List SearchHit) : List Char :=
  ("\nYou are a document-based assistant.\n\nRules:\n" ++
   "- You can Reply Casuall Greetings.\n" ++
   "- You Must Not Return any citations for greetings.\n" ++
   "- Answer ONLY using the provided context\n" ++
   "- If the answer is not explicitly stated, say: \"Not found in the document\"\n" ++
   "- Answer in clear, natural, complete sentences\n" ++
   "- Be concise and factual\n\nContext:\n").toList ++
  buildContextText contextChunks ++
  ("\n\nQuestion:\n").toList ++ query ++ ("\n").toList

/-- `generate_response(query, context_chunks)`: empty context short-circuits
to the canned no-context answer with `has_context = False`; otherwise the
LLM is called (`llm`, an abstract collaborator whose `.error` models
`call_llm` re-raising) and `has_context = True` with one citation per
context chunk. -/
def generate_response (llm : List Char → Except String (List Char)) (query : List Char)
    (contextChunks : List SearchHit) : Except String LLMResult :=
  if contextChunks = [] then
    Except.ok { response := noContextMessage, citations := [], hasContext := false }
  else
    match llm (ragPrompt query contextChunks) with
    | Except.error e => Except.error e
    | Except.ok llmAnswer =>
      Except.ok
        { response := llmAnswer,
          citations := contextChunks.map (fun c =>
            { chunkId := c.chunkId, pageNumber := c.pageNumber, similarity := c.similarity }),
          hasContext := true }

/-- The corpus fetched by `generate_query_embedding`:
`SELECT content FROM document_embeddings ORDER BY "chunkIndex"`. -/
def corpusTexts (db : List StoredRecord) : List (List Char) :=
  (db.mergeSort (fun a b => decide (a.chunkIndex ≤ b.chunkIndex))).map (fun r => r.content)

/-- The error reply built by `process_chat_message`'s outer `except`. -/
def errorReply (e : String) : ChatReply :=
  { message := ("Sorry, I encountered an error: ").toList ++ e.toList,
    citations := [], hasContext := false, chunksFound := 0 }

/-- `process_chat_message(message, document_id, user_id, chat_id)`:
embed the query (against the whole stored corpus), search with
`limit = 5` and `similarity_threshold = 0.01`, generate the response, and
save the message (`saveResult` the outcome of `save_chat_message`).  Any
exception along the way is caught and turned into `errorReply`.  The scope
is `[document_id] if document_id else None`. -/
def process_chat_message {V : Type} (cosine : List ℚ → List ℚ → Option ℚ)
    (fit : List (List Char) → Option V)
    (transform : V → List (List Char) → Option (List (List ℚ)))
    (llm : List Char → Except String (List Char)) (saveResult : Except String String)
    (db : List StoredRecord) (corpusFetchOk searchFetchOk : Bool)
    (message : List Char) (documentId : String) : ChatReply :=
  let queryEmbedding := generate_query_embedding fit transform
    (if corpusFetchOk then some (corpusTexts db) else none) message
  let similarChunks := search_similar_chunks cosine db searchFetchOk queryEmbedding
    (if documentId ≠ "" then some [documentId] else none) 5 (1/100)
  match generate_response llm message similarChunks with
  | Except.error e => errorReply e
  | Except.ok responseData =>
    match saveResult with
    | Except.error e => errorReply e
    | Except.ok _messageId =>
      { message := responseData.response, citations := responseData.citations,
        hasContext := responseData.hasContext, chunksFound := similarChunks.length }

/-- The hit one row contributes to a search, if any: `none` when the row's
embedding cannot be read or its similarity misses the threshold. -/
def hitOf (cosine : List ℚ → List ℚ → Option ℚ) (queryEmbedding : List ℚ) (threshold : ℚ)
    (row : StoredRecord) : Option SearchHit :=
  row.embedding.bind (fun chunkEmbedding =>
    let similarity := cosine_similarity_score cosine queryEmbedding chunkEmbedding
    if threshold ≤ similarity then
      some { chunkId := row.chunkId, content := row.content,
             pageNumber := row.pageNumber, documentId := row.documentId,
             similarity := similarity }
    else none)

/-- Spec-side description of the candidate hits of a search (§4.3 of the
spec): the scoped rows whose embedding is readable and whose similarity
reaches the threshold, in storage order.  Compared against the
imperative `collectHits`/`search_similar_chunks` in the theorems below. -/
def specCandidates (cosine : List ℚ → List ℚ → Option ℚ) (db : List StoredRecord)
    (queryEmbedding : List ℚ) (documentIds : Option (List String)) (threshold : ℚ) :
    List SearchHit :=
  (scopedRows db documentIds).filterMap (hitOf cosine queryEmbedding threshold)

/-- The four components of the chunking loop state that do not depend on
the uuid supply: the saved chunks up to their ids, the chunk index, and
the pending chunk. -/
def stateCore (st : ChunkState) :
    List (Nat × List Char × Int × List (List Char)) × Nat × List Char × List (List Char) :=
  (st.chunks.map Chunk.core, st.chunkIndex, st.currentChunk, st.currentSentences)

/-- A chunk's id has the shape the source builds: the running chunk index
together with the uuid fragment drawn for it. -/
def IdShaped (uuids : Nat → String) (c : Chunk) : Prop :=
  c.chunkId = mkChunkId c.chunkIndex (uuids c.chunkIndex)

/-- A piece of text that Python `strip()` leaves unchanged. -/
def Stripped (s : List Char) : Prop := pyStrip s = s

/-- The overlap relation between two consecutive chunks of one page: the
later chunk starts with the last `k` sentences of the earlier one, so the
two share at least one sentence. -/
def overlapLink (k : Nat) (c c' : Chunk) : Prop :=
  lastN k c.sentences <+: c'.sentences ∧ ∃ s, s ∈ c.sentences ∧ s ∈ c'.sentences

/-! ## Helper lemmas -/

theorem splitRunsGo_no_delim : ∀ (cs acc : List Char) (inRun : Bool),
    (∀ c ∈ acc, isSentenceDelim c = false) →
    ∀ s ∈ splitRunsGo cs acc inRun, ∀ c ∈ s, isSentenceDelim c = false := by
  intro cs
  induction cs with
  | nil =>
    intro acc inRun hacc s hs c hc
    simp only [splitRunsGo, List.mem_singleton] at hs
    subst hs
    exact hacc c (List.mem_reverse.mp hc)
  | cons a rest ih =>
    intro acc inRun hacc s hs c hc
    by_cases hd : isSentenceDelim a
    · simp only [splitRunsGo, hd, if_true] at hs
      by_cases hr : inRun
      · rw [if_pos hr] at hs
        exact ih acc true hacc s hs c hc
      · rw [if_neg hr] at hs
        rcases List.mem_cons.mp hs with h | h
        · subst h
          exact hacc c (List.mem_reverse.mp hc)
        · exact ih [] true (by intro x hx; cases hx) s h c hc
    · simp only [splitRunsGo, hd, if_false] at hs
      refine ih (a :: acc) false ?_ s hs c hc
      intro x hx
      rcases List.mem_cons.mp hx with h | h
      · subst h
        exact Bool.of_not_eq_true hd
      · exact hacc x h

theorem sentence_fold_eq : ∀ (frs : List (List Char)) (acc : List (List Char)),
    frs.foldl
      (fun cleaned fragment =>
        let sentence := pyStrip fragment
        if sentence ≠ [] ∧ 10 < sentence.length then cleaned ++ [sentence] else cleaned)
      acc
    = acc ++ (frs.map pyStrip).filter (fun s => decide (10 < s.length)) := by
  intro frs
  induction frs with
  | nil => intro acc; simp
  | cons f rest ih =>
    intro acc
    simp only [List.foldl_cons, List.map_cons, List.filter_cons]
    by_cases hcond : pyStrip f ≠ [] ∧ 10 < (pyStrip f).length
    · rw [if_pos hcond, ih, decide_eq_true hcond.2]
      simp
    · rw [if_neg hcond, ih]
      have hlen : ¬ 10 < (pyStrip f).length := by
        intro hl
        exact hcond ⟨by intro hnil; rw [hnil] at hl; simp at hl, hl⟩
      rw [decide_eq_false hlen]
      simp

theorem split_into_sentences_eq (text : List Char) :
    split_into_sentences text
      = ((split_on_delim_runs text).map pyStrip).filter (fun s => decide (10 < s.length)) := by
  unfold split_into_sentences
  rw [sentence_fold_eq]
  simp

theorem collect_fold_eq (cosine : List ℚ → List ℚ → Option ℚ) (queryEmbedding : List ℚ)
    (threshold : ℚ) : ∀ (rows : List StoredRecord) (acc : List SearchHit),
    rows.foldl
      (fun results row =>
        match row.embedding with
        | none => results
        | some chunkEmbedding =>
          let similarity := cosine_similarity_score cosine queryEmbedding chunkEmbedding
          if threshold ≤ similarity then
            results ++ [{ chunkId := row.chunkId, content := row.content,
                          pageNumber := row.pageNumber, documentId := row.documentId,
                          similarity := similarity }]
          else results)
      acc
    = acc ++ rows.filterMap (hitOf cosine queryEmbedding threshold) := by
  intro rows
  induction rows with
  | nil => intro acc; simp
  | cons row rest ih =>
    intro acc
    simp only [List.foldl_cons, List.filterMap_cons]
    rcases hemb : row.embedding with _ | emb
    · simp only [hitOf, hemb, Option.none_bind]
      exact ih acc
    · simp only [hitOf, hemb, Option.some_bind]
      by_cases hth : threshold ≤ cosine_similarity_score cosine queryEmbedding emb
      · rw [if_pos hth, if_pos hth, ih]
        simp
      · rw [if_neg hth, if_neg hth, ih]

theorem collectHits_eq_filterMap (cosine : List ℚ → List ℚ → Option ℚ)
    (queryEmbedding : List ℚ) (threshold : ℚ) (rows : List StoredRecord) :
    collectHits cosine queryEmbedding threshold rows
      = rows.filterMap (hitOf cosine queryEmbedding threshold) := by
  unfold collectHits
  rw [collect_fold_eq]
  simp

theorem scopedRows_append (ids : Option (List String)) (l1 l2 : List StoredRecord) :
    scopedRows (l1 ++ l2) ids = scopedRows l1 ids ++ scopedRows l2 ids := by
  rcases ids with _ | ids
  · rfl
  · by_cases h : ids ≠ []
    · simp only [scopedRows, if_pos h, List.filter_append]
    · simp only [scopedRows, if_neg h]

theorem hitLE_trans : ∀ (a b c : SearchHit), hitLE a b → hitLE b c → hitLE a c := by
  intro a b c hab hbc
  simp only [hitLE, decide_eq_true_eq] at *
  exact le_trans hbc hab

theorem hitLE_total : ∀ (a b : SearchHit), hitLE a b || hitLE b a := by
  intro a b
  simp only [hitLE]
  rcases le_total a.similarity b.similarity with h | h <;> simp [h]

theorem enumLE_hitLE_imp (a b : Nat × SearchHit) (h : List.enumLE hitLE a b = true) :
    b.2.similarity < a.2.similarity ∨
      (a.2.similarity = b.2.similarity ∧ a.1 ≤ b.1) := by
  simp only [List.enumLE, hitLE] at h
  by_cases h1 : b.2.similarity ≤ a.2.similarity
  · by_cases h2 : a.2.similarity ≤ b.2.similarity
    · right
      refine ⟨le_antisymm h2 h1, ?_⟩
      simpa [h1, h2] using h
    · left
      exact lt_of_le_not_le h1 h2
  · exfalso
    simp [h1] at h

theorem search_similar_chunks_true (cosine : List ℚ → List ℚ → Option ℚ)
    (db : List StoredRecord) (queryEmbedding : List ℚ)
    (documentIds : Option (List String)) (limit : Nat) (threshold : ℚ) :
    search_similar_chunks cosine db true queryEmbedding documentIds limit threshold
      = if (scopedRows db documentIds).length = 0 then []
        else ((collectHits cosine queryEmbedding threshold
                (scopedRows db documentIds)).mergeSort hitLE).take limit := rfl

/-! ## Claim theorems -/

/-- C10: `search_similar_chunks` is total: a failed database fetch is
caught and answered with the empty list, and a candidate row whose
embedding cannot be read is skipped without affecting the hits obtained
from the remaining candidates. -/
theorem search_total_and_skips_unreadable (cosine : List ℚ → List ℚ → Option ℚ)
    (db : List StoredRecord) (queryEmbedding : List ℚ)
    (documentIds : Option (List String)) (limit : Nat) (threshold : ℚ) :
    search_similar_chunks cosine db false queryEmbedding documentIds limit threshold = [] ∧
    (∀ (pre post : List StoredRecord) (bad : StoredRecord), bad.embedding = none →
      search_similar_chunks cosine (pre ++ bad :: post) true queryEmbedding documentIds
          limit threshold
        = search_similar_chunks cosine (pre ++ post) true queryEmbedding documentIds
            limit threshold) := by
  constructor
  · rfl
  · intro pre post bad hbad
    have hsc1 : scopedRows (pre ++ bad :: post) documentIds
        = scopedRows pre documentIds ++ scopedRows [bad] documentIds
            ++ scopedRows post documentIds := by
      have hsplit : pre ++ bad :: post = (pre ++ [bad]) ++ post := by simp
      rw [hsplit, scopedRows_append, scopedRows_append]
    have hsc2 : scopedRows (pre ++ post) documentIds
        = scopedRows pre documentIds ++ scopedRows post documentIds :=
      scopedRows_append _ _ _
    have hbadfm : (scopedRows [bad] documentIds).filterMap
        (hitOf cosine queryEmbedding threshold) = [] := by
      have hsub : scopedRows [bad] documentIds = [] ∨ scopedRows [bad] documentIds = [bad] := by
        rcases documentIds with _ | ids
        · right; rfl
        · by_cases h : ids ≠ []
          · simp only [scopedRows, if_pos h]
            by_cases hc : bad.documentId ∈ ids
            · right; simp [List.filter, hc]
            · left; simp [List.filter, hc]
          · right; simp only [scopedRows, if_neg h]
      rcases hsub with h | h <;> rw [h]
      · rfl
      · simp [hitOf, hbad]
    have hch : collectHits cosine queryEmbedding threshold
          (scopedRows (pre ++ bad :: post) documentIds)
        = collectHits cosine queryEmbedding threshold
            (scopedRows (pre ++ post) documentIds) := by
      rw [collectHits_eq_filterMap, collectHits_eq_filterMap, hsc1, hsc2]
      simp [List.filterMap_append, hbadfm]
    rw [search_similar_chunks_true, search_similar_chunks_true]
    by_cases h1 : (scopedRows (pre ++ bad :: post) documentIds).length = 0
    · rw [if_pos h1]
      have hz : scopedRows pre documentIds = [] ∧ scopedRows post documentIds = [] := by
        rw [hsc1] at h1
        simp only [List.length_append, Nat.add_eq_zero] at h1
        exact ⟨List.length_eq_zero.mp h1.1.1, List.length_eq_zero.mp h1.2⟩
      have h2 : (scopedRows (pre ++ post) documentIds).length = 0 := by
        rw [hsc2, hz.1, hz.2]
        rfl
      rw [if_pos h2]
    · rw [if_neg h1]
      by_cases h2 : (scopedRows (pre ++ post) documentIds).length = 0
      · rw [if_pos h2]
        have hcnil : collectHits cosine queryEmbedding threshold
            (scopedRows (pre ++ post) documentIds) = [] := by
          rw [collectHits_eq_filterMap, List.length_eq_zero.mp h2]
          rfl
        rw [hch, hcnil]
        simp
      · rw [if_neg h2, hch]

/-- C10 (witness): a lone unreadable row yields the same (empty) result as
no row at all, and a failed fetch yields the empty result. -/
theorem search_total_and_skips_unreadable_witness :
    search_similar_chunks (fun _ _ => some 1)
        ([] ++ (⟨"d", "c1", 0, [], none, none⟩ : StoredRecord) :: []) true [] none 5 0
      = search_similar_chunks (fun _ _ => some 1) ([] ++ []) true [] none 5 0 ∧
    search_similar_chunks (fun _ _ => some 1) [] false [] none 5 0 = [] :=
  ⟨(search_total_and_skips_unreadable (fun _ _ => some 1) [] [] none 5 0).2 [] []
      ⟨"d", "c1", 0, [], none, none⟩ rfl,
   (search_total_and_skips_unreadable (fun _ _ => some 1) [] [] none 5 0).1⟩

/-- C2 (amended): a search over readable candidates returns exactly the
scoped candidates whose similarity reaches the threshold — where a
non-empty supplied scope restricts by document id and an empty or absent
scope does not restrict — ordered by non-increasing similarity with ties
in storage order, truncated to `limit`.  The order is pinned down uniquely
by exhibiting an index-decorated list `S`: a permutation of the candidate
hits paired with their storage positions, sorted by the strict
lexicographic order (similarity descending, storage position ascending). -/
theorem search_returns_ranked_thresholded (cosine : List ℚ → List ℚ → Option ℚ)
    (db : List StoredRecord) (queryEmbedding : List ℚ)
    (documentIds : Option (List String)) (limit : Nat) (threshold : ℚ) :
    ∃ S : List (Nat × SearchHit),
      S.Perm ((specCandidates cosine db queryEmbedding documentIds threshold).enum) ∧
      S.Pairwise (fun a b => b.2.similarity < a.2.similarity ∨
        (a.2.similarity = b.2.similarity ∧ a.1 ≤ b.1)) ∧
      search_similar_chunks cosine db true queryEmbedding documentIds limit threshold
        = (S.map (fun p => p.2)).take limit := by
  by_cases h0 : (scopedRows db documentIds).length = 0
  · refine ⟨[], ?_, List.Pairwise.nil, ?_⟩
    · have hnil : scopedRows db documentIds = [] := List.length_eq_zero.mp h0
      simp [specCandidates, hnil]
    · rw [search_similar_chunks_true, if_pos h0]
      simp
  · refine ⟨((specCandidates cosine db queryEmbedding documentIds threshold).enum).mergeSort
        (List.enumLE hitLE), List.mergeSort_perm _ _, ?_, ?_⟩
    · have hp := List.sorted_mergeSort (List.enumLE_trans hitLE_trans)
        (List.enumLE_total hitLE_total)
        ((specCandidates cosine db queryEmbedding documentIds threshold).enum)
      exact hp.imp (fun h => enumLE_hitLE_imp _ _ h)
    · rw [search_similar_chunks_true, if_neg h0, List.mergeSort_enum, collectHits_eq_filterMap]
      rfl

/-- C2 (counterexample): with a supplied but empty scope list, the code's
truthiness test `if document_ids:` disables the restriction entirely: a
stored record whose document id lies outside the empty scope is still
returned, while the claim, restricting candidates to the supplied scope,
demands an empty result. -/
theorem search_with_empty_scope_not_restricted :
    search_similar_chunks (fun _ _ => some 1)
        [⟨"d", "c1", 0, "hello".toList, some [1], some 1⟩] true [1] (some []) 5 0
      = [⟨"c1", "hello".toList, some 1, "d", 1⟩] ∧
    ¬ ("d" ∈ ([] : List String)) := by
  constructor
  · simp [search_similar_chunks, scopedRows, collectHits, cosine_similarity_score,
      List.mergeSort_singleton]
  · simp

/-- C7 (amended): sentence splitting breaks the text on runs of the
characters period, exclamation mark and question mark, and keeps exactly
the fragments whose trimmed length is strictly greater than 10 characters;
a kept sentence contains no sentence delimiter.  (The source's guard is
`len(sentence) > 10`, so a fragment that trims to exactly 10 characters is
discarded, not kept.) -/
theorem split_sentences_keeps_long_fragments (text : List Char) :
    split_into_sentences text
      = ((split_on_delim_runs text).map pyStrip).filter (fun s => decide (10 < s.length)) ∧
    ∀ s ∈ split_into_sentences text, ∀ c ∈ s, isSentenceDelim c = false := by
  refine ⟨split_into_sentences_eq text, ?_⟩
  intro s hs c hc
  rw [split_into_sentences_eq] at hs
  have hs' := List.mem_of_mem_filter hs
  rcases List.mem_map.mp hs' with ⟨frag, hfrag, hstrip⟩
  have hsub : c ∈ frag := by
    subst hstrip
    have h1 : c ∈ (frag.dropWhile Char.isWhitespace).reverse.dropWhile Char.isWhitespace := by
      unfold pyStrip at hc
      exact List.mem_reverse.mp hc
    have h2 : c ∈ (frag.dropWhile Char.isWhitespace).reverse :=
      (List.dropWhile_sublist _).mem h1
    have h3 : c ∈ frag.dropWhile Char.isWhitespace := List.mem_reverse.mp h2
    exact (List.dropWhile_sublist _).mem h3
  exact splitRunsGo_no_delim text [] false (by intro x hx; cases hx) frag hfrag c hsub

/-- C7 (counterexample): the text "abcdefghij" is a single fragment of
trimmed length exactly 10; the claim as stated keeps fragments of trimmed
length at least 10, but the code discards it and returns no sentences. -/
theorem split_sentences_drops_len10_fragment :
    split_on_delim_runs ("abcdefghij".toList) = ["abcdefghij".toList] ∧
    (pyStrip ("abcdefghij".toList)).length = 10 ∧
    split_into_sentences ("abcdefghij".toList) = [] := by
  decide

/-- C7 (witness): the amended characterization evaluated on a concrete
text whose two fragments trim to lengths 22 and 4: only the long one is
kept, and it contains no delimiter. -/
theorem split_sentences_keeps_long_fragments_witness :
    split_into_sentences ("Cats are mammals today. Dogs".toList)
      = ((split_on_delim_runs ("Cats are mammals today. Dogs".toList)).map pyStrip).filter
          (fun s => decide (10 < s.length)) ∧
    ∀ c ∈ ("Cats are mammals today".toList), isSentenceDelim c = false :=
  ⟨(split_sentences_keeps_long_fragments ("Cats are mammals today. Dogs".toList)).1,
   (split_sentences_keeps_long_fragments ("Cats are mammals today. Dogs".toList)).2
     ("Cats are mammals today".toList) (by decide)⟩

/-- C4: when the two vectors have different lengths,
`cosine_similarity_score` takes the fallback path (it cannot raise: the
abstract numpy call is not reached) and returns 0.1 when both vectors have
non-zero L1 magnitude, 0 otherwise; the result is non-negative either
way. -/
theorem fallback_on_dim_mismatch (cosine : List ℚ → List ℚ → Option ℚ) (e1 e2 : List ℚ)
    (h : e1.length ≠ e2.length) :
    cosine_similarity_score cosine e1 e2 =
      (if 0 < (e1.map (fun x => |x|)).sum ∧ 0 < (e2.map (fun x => |x|)).sum
       then 1/10 else 0) ∧
    0 ≤ cosine_similarity_score cosine e1 e2 := by
  have he : cosine_similarity_score cosine e1 e2 = fallback_similarity e1 e2 := by
    unfold cosine_similarity_score
    rw [if_pos h]
  refine ⟨by rw [he]; rfl, ?_⟩
  rw [he]
  unfold fallback_similarity
  dsimp only
  split
  · norm_num
  · exact le_refl 0

/-- C4 (witness): vectors of lengths 1 and 2, both with non-zero mass,
score exactly 0.1 even though the abstract cosine call always raises. -/
theorem fallback_on_dim_mismatch_witness :
    ([(1:ℚ)].length ≠ [(1:ℚ), 2].length) ∧
    cosine_similarity_score (fun _ _ => none) [(1:ℚ)] [(1:ℚ), 2] = 1/10 := by
  refine ⟨by decide, ?_⟩
  have h := (fallback_on_dim_mismatch (fun _ _ => none) [(1:ℚ)] [(1:ℚ), 2] (by decide)).1
  rw [h]
  norm_num

/-- C5: against a non-empty corpus, `generate_query_embedding` fits a
fresh vectorizer on the stored chunk texts plus the query and transforms
only the query; the returned vector is the first row of that transform's
output. -/
theorem query_embedding_refit_transform {V : Type} (fit : List (List Char) → Option V)
    (transform : V → List (List Char) → Option (List (List ℚ)))
    (chunkTexts : List (List Char)) (query : List Char) (vectorizer : V)
    (row : List ℚ) (rest : List (List ℚ))
    (hne : chunkTexts ≠ [])
    (hfit : fit (chunkTexts ++ [query]) = some vectorizer)
    (htr : transform vectorizer [query] = some (row :: rest)) :
    generate_query_embedding fit transform (some chunkTexts) query = row := by
  simp [generate_query_embedding, hne, hfit, htr]

/-- C5 (witness): a one-text corpus with a vectorizer returning the row
vector [2] for the query. -/
theorem query_embedding_refit_transform_witness :
    generate_query_embedding (fun _ => some ()) (fun _ _ => some [[(2:ℚ)]])
      (some [['a']]) ['b'] = [(2:ℚ)] :=
  query_embedding_refit_transform (fun _ => some ()) (fun _ _ => some [[(2:ℚ)]])
    [['a']] ['b'] () [(2:ℚ)] [] (by decide) rfl rfl

/-- C9: embedding generation is exception-free towards its caller: the
batch path returns the first successful strategy's value, falls through
silently on each failure, and always lands on the basic strategy (which
yields one vector per input text and cannot fail); empty input returns []
without invoking a strategy; the query path answers [] when its fetch or
its vectorizer fit raises. -/
theorem embeddings_fallback_silent (texts : List (List Char))
    (stModel : Option (Option (List (List ℚ)))) (tfidfResult : Option (List (List ℚ)))
    {V : Type} (fit : List (List Char) → Option V)
    (transform : V → List (List Char) → Option (List (List ℚ))) (query : List Char)
    (hne : texts ≠ []) :
    (∀ vs, stModel = some (some vs) →
      generate_embeddings texts "auto" stModel tfidfResult = vs) ∧
    ((stModel = none ∨ stModel = some none) →
      ∀ ws, tfidfResult = some ws →
        generate_embeddings texts "auto" stModel tfidfResult = ws) ∧
    ((stModel = none ∨ stModel = some none) → tfidfResult = none →
      generate_embeddings texts "auto" stModel tfidfResult = generate_basic_embeddings texts ∧
      (generate_basic_embeddings texts).length = texts.length) ∧
    generate_embeddings [] "auto" stModel tfidfResult = [] ∧
    generate_query_embedding fit transform none query = [] ∧
    (∀ corpus : List (List Char), corpus ≠ [] → fit (corpus ++ [query]) = none →
      generate_query_embedding fit transform (some corpus) query = []) := by
  refine ⟨?_, ?_, ?_, ?_, ?_, ?_⟩
  · intro vs hst
    unfold generate_embeddings
    rw [if_neg hne, hst]
    simp
  · rintro (hst | hst) ws htf <;>
    · unfold generate_embeddings
      rw [if_neg hne, hst, htf]
      simp
  · rintro (hst | hst) htf <;>
    · unfold generate_embeddings
      rw [if_neg hne, hst, htf]
      refine ⟨by simp, ?_⟩
      unfold generate_basic_embeddings
      simp
  · unfold generate_embeddings
    simp
  · rfl
  · intro corpus hcne hfit
    simp [generate_query_embedding, hcne, hfit]

/-- C9 (witness): a singleton batch with both upstream strategies failing
is embedded by the basic strategy; the failing query path answers []. -/
theorem embeddings_fallback_silent_witness :
    generate_embeddings [['a']] "auto" (some none) none = generate_basic_embeddings [['a']] ∧
    generate_query_embedding (fun _ : List (List Char) => (none : Option Unit))
      (fun _ _ => none) (some [['a']]) ['b'] = [] := by
  have h := embeddings_fallback_silent [['a']] (some none) none
    (fun _ : List (List Char) => (none : Option Unit)) (fun _ _ => none) ['b'] (by decide)
  exact ⟨(h.2.2.1 (Or.inr rfl) rfl).1, h.2.2.2.2.2 [['a']] (by decide) rfl⟩

theorem head?_dropWhile (p : Char → Bool) : ∀ (l : List Char) (a : Char),
    (l.dropWhile p).head? = some a → p a = false := by
  intro l
  induction l with
  | nil => intro a h; cases h
  | cons x t ih =>
    intro a h
    by_cases hx : p x
    · rw [List.dropWhile_cons_of_pos hx] at h
      exact ih a h
    · rw [List.dropWhile_cons_of_neg hx] at h
      cases h
      exact Bool.of_not_eq_true hx

theorem getLast?_dropWhile (p : Char → Bool) : ∀ (l : List Char),
    l.dropWhile p ≠ [] → (l.dropWhile p).getLast? = l.getLast? := by
  intro l
  induction l with
  | nil => intro h; exact absurd rfl h
  | cons x t ih =>
    intro h
    by_cases hx : p x
    · rw [List.dropWhile_cons_of_pos hx] at h ⊢
      rw [ih h]
      have ht : t ≠ [] := by
        intro ht
        rw [ht] at h
        exact h rfl
      rcases t with _ | ⟨y, t'⟩
      · exact absurd rfl ht
      · rw [List.getLast?_cons_cons]
    · rw [List.dropWhile_cons_of_neg hx]

theorem pyStrip_getLast (s : List Char) : ∀ b, (pyStrip s).getLast? = some b →
    b.isWhitespace = false := by
  intro b hb
  unfold pyStrip at hb
  rw [List.getLast?_reverse] at hb
  exact head?_dropWhile _ _ b hb

theorem pyStrip_head (s : List Char) : ∀ a, (pyStrip s).head? = some a →
    a.isWhitespace = false := by
  intro a ha
  unfold pyStrip at ha
  rw [List.head?_reverse] at ha
  have hne : (s.dropWhile Char.isWhitespace).reverse.dropWhile Char.isWhitespace ≠ [] := by
    intro hnil
    rw [hnil] at ha
    cases ha
  rw [getLast?_dropWhile _ _ hne, List.getLast?_reverse] at ha
  exact head?_dropWhile _ _ a ha

theorem pyStrip_eq_self_of_edges (s : List Char)
    (hh : ∀ a, s.head? = some a → a.isWhitespace = false)
    (hl : ∀ b, s.getLast? = some b → b.isWhitespace = false) : pyStrip s = s := by
  rcases s with _ | ⟨a, t⟩
  · rfl
  · unfold pyStrip
    rw [List.dropWhile_cons_of_neg (by simp [hh a rfl])]
    rcases hrev : (a :: t).reverse with _ | ⟨c, r⟩
    · exact absurd (congrArg List.length hrev) (by simp)
    · have hc : c.isWhitespace = false := by
        refine hl c ?_
        rw [← List.head?_reverse, hrev]
        rfl
      rw [List.dropWhile_cons_of_neg (by simp [hc])]
      rw [← hrev]
      rw [List.reverse_reverse]

theorem pyStrip_idem (s : List Char) : pyStrip (pyStrip s) = pyStrip s :=
  pyStrip_eq_self_of_edges _ (pyStrip_head s) (pyStrip_getLast s)

theorem stripped_head (a : Char) (t : List Char) (h : Stripped (a :: t)) :
    a.isWhitespace = false := by
  refine pyStrip_head (a :: t) a ?_
  rw [h]
  rfl

theorem pyStrip_ne_nil (a : Char) (t : List Char) (ha : a.isWhitespace = false) :
    pyStrip (a :: t) ≠ [] := by
  unfold pyStrip
  intro hcon
  rw [List.dropWhile_cons_of_neg (by simp [ha]), List.reverse_eq_nil_iff,
    List.dropWhile_eq_nil_iff] at hcon
  have := hcon a (by simp)
  rw [ha] at this
  cases this

theorem length_pyStrip_le (s : List Char) : (pyStrip s).length ≤ s.length := by
  unfold pyStrip
  calc ((s.dropWhile Char.isWhitespace).reverse.dropWhile Char.isWhitespace).reverse.length
      = ((s.dropWhile Char.isWhitespace).reverse.dropWhile Char.isWhitespace).length := by
        rw [List.length_reverse]
    _ ≤ (s.dropWhile Char.isWhitespace).reverse.length :=
        (List.dropWhile_sublist _).length_le
    _ = (s.dropWhile Char.isWhitespace).length := by rw [List.length_reverse]
    _ ≤ s.length := (List.dropWhile_sublist _).length_le

theorem mem_split_into_sentences (t s : List Char) (h : s ∈ split_into_sentences t) :
    Stripped s ∧ s ≠ [] ∧ 10 < s.length := by
  rw [split_into_sentences_eq] at h
  have hlen : 10 < s.length := by
    have := List.of_mem_filter h
    exact of_decide_eq_true this
  have hstr : Stripped s := by
    rcases List.mem_map.mp (List.mem_of_mem_filter h) with ⟨frag, _, hfrag⟩
    rw [← hfrag]
    exact pyStrip_idem frag
  refine ⟨hstr, ?_, hlen⟩
  intro hnil
  rw [hnil] at hlen
  exact absurd hlen (by simp)

theorem joinSp_cons (x : List Char) (r : List (List Char)) :
    ∃ rest, joinSp (x :: r) = x ++ rest := by
  rcases r with _ | ⟨y, r'⟩
  · exact ⟨[], by simp [joinSp]⟩
  · exact ⟨' ' :: joinSp (y :: r'), rfl⟩

theorem lastN_ne_nil (k : Nat) (l : List α) (hk : 1 ≤ k) (hl : l ≠ []) :
    lastN k l ≠ [] := by
  unfold lastN
  intro hcon
  have hlen := congrArg List.length hcon
  rw [List.length_drop] at hlen
  simp only [List.length_nil] at hlen
  have hpos : 0 < l.length := List.length_pos.mpr hl
  omega

theorem lastN_suffix_subset (k : Nat) (l : List α) : ∀ x ∈ lastN k l, x ∈ l := by
  intro x hx
  exact List.drop_subset _ _ hx

theorem saveChunk_core (p : Int) (u u' : Nat → String) (st st' : ChunkState)
    (h : stateCore st = stateCore st') :
    stateCore (saveChunk p u st) = stateCore (saveChunk p u' st') := by
  rcases st with ⟨cks, idx, cur, sents⟩
  rcases st' with ⟨cks', idx', cur', sents'⟩
  simp only [stateCore, Prod.mk.injEq] at h
  obtain ⟨h1, h2, h3, h4⟩ := h
  subst h2; subst h3; subst h4
  unfold saveChunk
  by_cases hg : pyStrip cur ≠ []
  · rw [if_pos hg, if_pos hg]
    simp [stateCore, Chunk.core, h1]
  · rw [if_neg hg, if_neg hg]
    simp [stateCore, h1]

theorem stepSentence_core (cs co : Nat) (u u' : Nat → String) (p : Int)
    (st st' : ChunkState) (s : List Char) (h : stateCore st = stateCore st') :
    stateCore (stepSentence cs co u p st s) = stateCore (stepSentence cs co u' p st' s) := by
  have hsave := saveChunk_core p u u' st st' h
  rcases st with ⟨cks, idx, cur, sents⟩
  rcases st' with ⟨cks', idx', cur', sents'⟩
  simp only [stateCore, Prod.mk.injEq] at h
  obtain ⟨h1, h2, h3, h4⟩ := h
  subst h2; subst h3; subst h4
  unfold stepSentence
  by_cases hfit : (cur ++ ' ' :: s).length ≤ cs
  · rw [if_pos hfit, if_pos hfit]
    simp [stateCore, h1]
  · rw [if_neg hfit, if_neg hfit]
    simp only [stateCore, Prod.mk.injEq] at hsave ⊢
    exact ⟨hsave.1, hsave.2.1, trivial⟩

theorem foldl_step_core (cs co : Nat) (u u' : Nat → String) (p : Int) :
    ∀ (sents : List (List Char)) (st st' : ChunkState),
    stateCore st = stateCore st' →
    stateCore (sents.foldl (stepSentence cs co u p) st)
      = stateCore (sents.foldl (stepSentence cs co u' p) st') := by
  intro sents
  induction sents with
  | nil => intro st st' h; exact h
  | cons s rest ih =>
    intro st st' h
    exact ih _ _ (stepSentence_core cs co u u' p st st' s h)

theorem chunkPage_core (cs co : Nat) (u u' : Nat → String) (page : Page) (i : Nat) :
    (chunkPage cs co u page i).1.map Chunk.core = (chunkPage cs co u' page i).1.map Chunk.core ∧
    (chunkPage cs co u page i).2 = (chunkPage cs co u' page i).2 := by
  unfold chunkPage
  have hfold := foldl_step_core cs co u u' page.pageNumber (split_into_sentences page.text)
    ⟨[], i, [], []⟩ ⟨[], i, [], []⟩ rfl
  have hsave := saveChunk_core page.pageNumber u u' _ _ hfold
  simp only [stateCore, Prod.mk.injEq] at hsave
  exact ⟨hsave.1, hsave.2.1⟩

theorem chunk_text_fold_core (cs co : Nat) (u u' : Nat → String) :
    ∀ (pages : List Page) (acc acc' : List Chunk × Nat),
    acc.1.map Chunk.core = acc'.1.map Chunk.core → acc.2 = acc'.2 →
    (pages.foldl
      (fun acc page =>
        let pr := chunkPage cs co u page acc.2
        (acc.1 ++ pr.1, pr.2)) acc).1.map Chunk.core
    = (pages.foldl
      (fun acc page =>
        let pr := chunkPage cs co u' page acc.2
        (acc.1 ++ pr.1, pr.2)) acc').1.map Chunk.core ∧
    (pages.foldl
      (fun acc page =>
        let pr := chunkPage cs co u page acc.2
        (acc.1 ++ pr.1, pr.2)) acc).2
    = (pages.foldl
      (fun acc page =>
        let pr := chunkPage cs co u' page acc.2
        (acc.1 ++ pr.1, pr.2)) acc').2 := by
  intro pages
  induction pages with
  | nil => intro acc acc' h1 h2; exact ⟨h1, h2⟩
  | cons page rest ih =>
    intro acc acc' h1 h2
    simp only [List.foldl_cons]
    have hpc := chunkPage_core cs co u u' page acc.2
    refine ih _ _ ?_ ?_
    · rw [List.map_append, List.map_append, h1, hpc.1, h2]
    · rw [hpc.2, h2]

theorem chunk_text_core (pages : List Page) (cs co : Nat) (u u' : Nat → String) :
    (chunk_text pages cs co u).map Chunk.core = (chunk_text pages cs co u').map Chunk.core := by
  unfold chunk_text
  exact (chunk_text_fold_core cs co u u' pages ([], 0) ([], 0) rfl rfl).1

theorem saveChunk_ids (p : Int) (u : Nat → String) (st : ChunkState)
    (h : ∀ c ∈ st.chunks, IdShaped u c) : ∀ c ∈ (saveChunk p u st).chunks, IdShaped u c := by
  unfold saveChunk
  split
  · intro c hc
    rcases List.mem_append.mp hc with h1 | h1
    · exact h c h1
    · have : c = _ := List.mem_singleton.mp h1
      subst this
      rfl
  · exact h

theorem stepSentence_chunks (cs co : Nat) (u : Nat → String) (p : Int) (st : ChunkState)
    (s : List Char) :
    (stepSentence cs co u p st s).chunks = st.chunks ∨
    (stepSentence cs co u p st s).chunks = (saveChunk p u st).chunks := by
  unfold stepSentence
  by_cases hfit : (st.currentChunk ++ ' ' :: s).length ≤ cs
  · left
    rw [if_pos hfit]
  · right
    rw [if_neg hfit]

theorem stepSentence_ids (cs co : Nat) (u : Nat → String) (p : Int) (st : ChunkState)
    (s : List Char) (h : ∀ c ∈ st.chunks, IdShaped u c) :
    ∀ c ∈ (stepSentence cs co u p st s).chunks, IdShaped u c := by
  rcases stepSentence_chunks cs co u p st s with h' | h' <;> rw [h']
  · exact h
  · exact saveChunk_ids p u st h

theorem foldl_step_ids (cs co : Nat) (u : Nat → String) (p : Int) :
    ∀ (sents : List (List Char)) (st : ChunkState),
    (∀ c ∈ st.chunks, IdShaped u c) →
    ∀ c ∈ (sents.foldl (stepSentence cs co u p) st).chunks, IdShaped u c := by
  intro sents
  induction sents with
  | nil => intro st h; exact h
  | cons s rest ih =>
    intro st h
    exact ih _ (stepSentence_ids cs co u p st s h)

theorem chunkPage_ids (cs co : Nat) (u : Nat → String) (page : Page) (i : Nat) :
    ∀ c ∈ (chunkPage cs co u page i).1, IdShaped u c := by
  unfold chunkPage
  exact saveChunk_ids page.pageNumber u _
    (foldl_step_ids cs co u page.pageNumber (split_into_sentences page.text)
      ⟨[], i, [], []⟩ (by intro c hc; cases hc))

theorem chunk_text_ids (pages : List Page) (cs co : Nat) (u : Nat → String) :
    ∀ c ∈ chunk_text pages cs co u, IdShaped u c := by
  unfold chunk_text
  suffices h : ∀ (acc : List Chunk × Nat), (∀ c ∈ acc.1, IdShaped u c) →
      ∀ c ∈ (pages.foldl
        (fun acc page =>
          let pr := chunkPage cs co u page acc.2
          (acc.1 ++ pr.1, pr.2)) acc).1, IdShaped u c by
    exact h ([], 0) (by intro c hc; cases hc)
  induction pages with
  | nil => intro acc h; exact h
  | cons page rest ih =>
    intro acc h
    simp only [List.foldl_cons]
    refine ih _ ?_
    intro c hc
    rcases List.mem_append.mp hc with h1 | h1
    · exact h c h1
    · exact chunkPage_ids cs co u page acc.2 c h1

theorem upsertRecord_fresh (db : List StoredRecord) (r : StoredRecord)
    (h : ∀ x ∈ db, x.chunkId ≠ r.chunkId) : upsertRecord db r = db ++ [r] := by
  unfold upsertRecord
  rw [if_neg]
  simp only [List.any_eq_true, beq_iff_eq, not_exists]
  rintro x ⟨hx, he⟩
  exact h x hx he

theorem store_append_fresh (docId : String) :
    ∀ (chunks : List Chunk) (embs : List (List ℚ)) (db : List StoredRecord),
    (∀ c ∈ chunks, ∀ r ∈ db, r.chunkId ≠ c.chunkId) →
    (chunks.map (fun c => c.chunkId)).Nodup →
    (chunks.zip embs).foldl (fun d ce => upsertRecord d (chunkRecord docId ce.1 ce.2)) db
      = db ++ (chunks.zip embs).map (fun ce => chunkRecord docId ce.1 ce.2) := by
  intro chunks
  induction chunks with
  | nil => intro embs db _ _; simp
  | cons c cs ih =>
    intro embs db h hn
    rcases embs with _ | ⟨e, es⟩
    · simp [List.zip_nil_right]
    · simp only [List.zip_cons_cons, List.foldl_cons, List.map_cons]
      rw [upsertRecord_fresh db (chunkRecord docId c e)
        (by intro x hx he; exact h c (List.mem_cons_self _ _) x hx he)]
      rw [ih es (db ++ [chunkRecord docId c e]) ?_ ?_]
      · simp
      · intro c' hc' r hr
        rcases List.mem_append.mp hr with h1 | h1
        · exact h c' (List.mem_cons_of_mem _ hc') r h1
        · have hr1 : r = chunkRecord docId c e := List.mem_singleton.mp h1
          subst hr1
          intro heq
          have hmap : (c.chunkId :: cs.map (fun c => c.chunkId)).Nodup := by
            simpa using hn
          have hmem : c.chunkId ∈ cs.map (fun c => c.chunkId) := by
            have : (chunkRecord docId c e).chunkId = c.chunkId := rfl
            rw [this] at heq
            rw [heq]
            exact List.mem_map_of_mem _ hc'
          exact (List.nodup_cons.mp hmap).1 hmem
      · have hmap : (c.chunkId :: cs.map (fun c => c.chunkId)).Nodup := by
          simpa using hn
        exact (List.nodup_cons.mp hmap).2

/-- C1 (amended): re-ingesting the identical `(document_id, pages)` under
the same configuration re-creates chunks that are identical in content,
chunk index, page number and sentences, but whose chunk ids embed the
fresh uuid fragments of the second run; whenever those ids are absent from
the stored table (the actual behavior of `uuid4`), the second store is
pure insertion — it appends one new record per chunk and replaces nothing
in place. -/
theorem reingest_same_core_inserts_fresh (docId : String) (pages : List Page)
    (cs co : Nat) (u1 u2 : Nat → String) (embs : List (List ℚ)) (db1 : List StoredRecord) :
    (chunk_text pages cs co u2).map Chunk.core = (chunk_text pages cs co u1).map Chunk.core ∧
    (chunk_text pages cs co u2).map (fun c => c.content)
      = (chunk_text pages cs co u1).map (fun c => c.content) ∧
    (∀ c ∈ chunk_text pages cs co u2, c.chunkId = mkChunkId c.chunkIndex (u2 c.chunkIndex)) ∧
    ((∀ c ∈ chunk_text pages cs co u2, ∀ r ∈ db1, r.chunkId ≠ c.chunkId) →
      ((chunk_text pages cs co u2).map (fun c => c.chunkId)).Nodup →
      (chunk_text pages cs co u2).length = embs.length →
      store_embeddings_in_database docId (chunk_text pages cs co u2) embs db1
        = Except.ok (db1 ++ ((chunk_text pages cs co u2).zip embs).map
            (fun ce => chunkRecord docId ce.1 ce.2))) := by
  refine ⟨chunk_text_core pages cs co u2 u1, ?_, chunk_text_ids pages cs co u2, ?_⟩
  · have h := chunk_text_core pages cs co u2 u1
    have hcomp : ∀ (l : List Chunk),
        l.map (fun c => c.content) = (l.map Chunk.core).map (fun q => q.2.1) := by
      intro l
      rw [List.map_map]
      rfl
    rw [hcomp, hcomp, h]
  · intro hfresh hnodup hlen
    unfold store_embeddings_in_database
    rw [if_neg (by simp [hlen])]
    rw [store_append_fresh docId _ embs db1 hfresh hnodup]

/-- C1 (counterexample): ingesting the same single page twice with the
distinct uuid fragments the two runs draw produces a second chunk id
different from the first, and the second run appends a second record for
the same document instead of replacing the first in place — the stored
chunk set after the second run is not the first run's set. -/
theorem reingest_inserts_duplicate_records :
    process_and_store "doc" [⟨1, "Cats are mammals today. Dogs are mammals too.".toList⟩]
        1000 100 (fun _ => "aaaaaaaa") (fun ts => ts.map (fun _ => [(1:ℚ)])) []
      = Except.ok [⟨"doc", "chunk_0_aaaaaaaa", 0,
          "Cats are mammals today Dogs are mammals too".toList, some [1], some 1⟩] ∧
    process_and_store "doc" [⟨1, "Cats are mammals today. Dogs are mammals too.".toList⟩]
        1000 100 (fun _ => "bbbbbbbb") (fun ts => ts.map (fun _ => [(1:ℚ)]))
        [⟨"doc", "chunk_0_aaaaaaaa", 0,
          "Cats are mammals today Dogs are mammals too".toList, some [1], some 1⟩]
      = Except.ok [⟨"doc", "chunk_0_aaaaaaaa", 0,
          "Cats are mammals today Dogs are mammals too".toList, some [1], some 1⟩,
          ⟨"doc", "chunk_0_bbbbbbbb", 0,
          "Cats are mammals today Dogs are mammals too".toList, some [1], some 1⟩] ∧
    ("chunk_0_bbbbbbbb" : String) ≠ "chunk_0_aaaaaaaa" :=
  ⟨rfl, rfl, by decide⟩

/-- C1 (witness): the amended statement instantiated on the concrete
re-ingestion of the counterexample's page: the second run's store call
appends its freshly-identified record after the first run's record. -/
theorem reingest_same_core_inserts_fresh_witness :
    store_embeddings_in_database "doc"
        (chunk_text [⟨1, "Cats are mammals today. Dogs are mammals too.".toList⟩] 1000 100
          (fun _ => "bbbbbbbb")) [[(1:ℚ)]]
        [⟨"doc", "chunk_0_aaaaaaaa", 0,
          "Cats are mammals today Dogs are mammals too".toList, some [1], some 1⟩]
      = Except.ok ([⟨"doc", "chunk_0_aaaaaaaa", 0,
          "Cats are mammals today Dogs are mammals too".toList, some [1], some 1⟩] ++
          ((chunk_text [⟨1, "Cats are mammals today. Dogs are mammals too.".toList⟩] 1000 100
            (fun _ => "bbbbbbbb")).zip [[(1:ℚ)]]).map (fun ce => chunkRecord "doc" ce.1 ce.2)) :=
  (reingest_same_core_inserts_fresh "doc"
      [⟨1, "Cats are mammals today. Dogs are mammals too.".toList⟩] 1000 100
      (fun _ => "aaaaaaaa") (fun _ => "bbbbbbbb") [[(1:ℚ)]]
      [⟨"doc", "chunk_0_aaaaaaaa", 0,
        "Cats are mammals today Dogs are mammals too".toList, some [1], some 1⟩]).2.2.2
    (by decide) (by decide) (by decide)

theorem saveChunk_bound (cs : Nat) (p : Int) (u : Nat → String) (st : ChunkState)
    (hchunks : ∀ c ∈ st.chunks, c.content.length ≤ cs ∨ c.sentences = [c.content])
    (hpend : st.currentChunk.length ≤ cs ∨
      (st.currentSentences = [st.currentChunk] ∧ Stripped st.currentChunk)) :
    ∀ c ∈ (saveChunk p u st).chunks, c.content.length ≤ cs ∨ c.sentences = [c.content] := by
  unfold saveChunk
  split
  · intro c hc
    rcases List.mem_append.mp hc with h1 | h1
    · exact hchunks c h1
    · have hc1 := List.mem_singleton.mp h1
      subst hc1
      rcases hpend with hlen | ⟨hsent, hstr⟩
      · left
        exact le_trans (length_pyStrip_le st.currentChunk) hlen
      · right
        have hstr' : pyStrip st.currentChunk = st.currentChunk := hstr
        simp only [hsent, hstr']
  · exact hchunks

theorem chunk_bound_step (cs : Nat) (u : Nat → String) (p : Int) (st : ChunkState)
    (s : List Char) (hs : Stripped s)
    (hchunks : ∀ c ∈ st.chunks, c.content.length ≤ cs ∨ c.sentences = [c.content])
    (hpend : st.currentChunk.length ≤ cs ∨
      (st.currentSentences = [st.currentChunk] ∧ Stripped st.currentChunk)) :
    (∀ c ∈ (stepSentence cs 0 u p st s).chunks,
        c.content.length ≤ cs ∨ c.sentences = [c.content]) ∧
    ((stepSentence cs 0 u p st s).currentChunk.length ≤ cs ∨
      ((stepSentence cs 0 u p st s).currentSentences
          = [(stepSentence cs 0 u p st s).currentChunk]
        ∧ Stripped (stepSentence cs 0 u p st s).currentChunk)) := by
  unfold stepSentence
  by_cases hfit : (st.currentChunk ++ ' ' :: s).length ≤ cs
  · rw [if_pos hfit]
    refine ⟨hchunks, Or.inl ?_⟩
    dsimp only
    simp only [List.length_append, List.length_cons] at hfit
    by_cases hcc : st.currentChunk = []
    · rw [if_pos hcc]
      rw [hcc] at hfit
      simp only [List.length_nil] at hfit
      omega
    · rw [if_neg hcc]
      simp only [List.length_append, List.length_cons]
      omega
  · rw [if_neg hfit]
    constructor
    · intro c hc
      simp only [Nat.lt_irrefl, false_and, if_false] at hc
      exact saveChunk_bound cs p u st hchunks hpend c hc
    · right
      simp only [Nat.lt_irrefl, false_and, if_false]
      exact ⟨rfl, hs⟩

theorem chunk_bound_fold (cs : Nat) (u : Nat → String) (p : Int) :
    ∀ (sents : List (List Char)) (st : ChunkState),
    (∀ x ∈ sents, Stripped x) →
    (∀ c ∈ st.chunks, c.content.length ≤ cs ∨ c.sentences = [c.content]) →
    (st.currentChunk.length ≤ cs ∨
      (st.currentSentences = [st.currentChunk] ∧ Stripped st.currentChunk)) →
    (∀ c ∈ (sents.foldl (stepSentence cs 0 u p) st).chunks,
        c.content.length ≤ cs ∨ c.sentences = [c.content]) ∧
    ((sents.foldl (stepSentence cs 0 u p) st).currentChunk.length ≤ cs ∨
      ((sents.foldl (stepSentence cs 0 u p) st).currentSentences
          = [(sents.foldl (stepSentence cs 0 u p) st).currentChunk]
        ∧ Stripped (sents.foldl (stepSentence cs 0 u p) st).currentChunk)) := by
  intro sents
  induction sents with
  | nil => intro st _ h1 h2; exact ⟨h1, h2⟩
  | cons s rest ih =>
    intro st hstr h1 h2
    have hstep := chunk_bound_step cs u p st s (hstr s (List.mem_cons_self _ _)) h1 h2
    exact ih _ (fun x hx => hstr x (List.mem_cons_of_mem _ hx)) hstep.1 hstep.2

theorem chunkPage_bound (cs : Nat) (u : Nat → String) (page : Page) (i : Nat) :
    ∀ c ∈ (chunkPage cs 0 u page i).1, c.content.length ≤ cs ∨ c.sentences = [c.content] := by
  unfold chunkPage
  have hfold := chunk_bound_fold cs u page.pageNumber (split_into_sentences page.text)
    ⟨[], i, [], []⟩
    (fun x hx => (mem_split_into_sentences page.text x hx).1)
    (by intro c hc; cases hc)
    (Or.inl (by simp))
  exact saveChunk_bound cs page.pageNumber u _ hfold.1 hfold.2

theorem chunk_text_bound (pages : List Page) (cs : Nat) (u : Nat → String) :
    ∀ c ∈ chunk_text pages cs 0 u, c.content.length ≤ cs ∨ c.sentences = [c.content] := by
  unfold chunk_text
  suffices h : ∀ (acc : List Chunk × Nat),
      (∀ c ∈ acc.1, c.content.length ≤ cs ∨ c.sentences = [c.content]) →
      ∀ c ∈ (pages.foldl
        (fun acc page =>
          let pr := chunkPage cs 0 u page acc.2
          (acc.1 ++ pr.1, pr.2)) acc).1,
        c.content.length ≤ cs ∨ c.sentences = [c.content] by
    exact h ([], 0) (by intro c hc; cases hc)
  induction pages with
  | nil => intro acc h; exact h
  | cons page rest ih =>
    intro acc h
    simp only [List.foldl_cons]
    refine ih _ ?_
    intro c hc
    rcases List.mem_append.mp hc with h1 | h1
    · exact h c h1
    · exact chunkPage_bound cs u page acc.2 c h1

/-- C3 (amended): with `chunk_size = 1000` and `chunk_overlap = 0`, every
chunk produced by `chunk_text` has at most 1000 characters, except a chunk
consisting of a single sentence (never split, its own chunk).  With
`chunk_overlap > 0` — the repository default is 100 — the bound fails: a
chunk seeded with overlap sentences plus the overflowing sentence can
exceed 1000 characters while containing several sentences (see the
counterexample). -/
theorem chunk_size_bound_without_overlap (pages : List Page) (u : Nat → String) :
    ∀ c ∈ chunk_text pages 1000 0 u,
      c.content.length ≤ 1000 ∨ c.sentences = [c.content] :=
  chunk_text_bound pages 1000 u

set_option maxRecDepth 200000 in
/-- C3 (counterexample): with `chunk_size = 1000` and the repository's
default `chunk_overlap = 100`, a page with sentences of 800, 800 and 22
characters produces a middle chunk of 1601 characters containing two
sentences, neither of which exceeds 1000 characters — violating the
size-bound claim, whose only allowed exception is a single oversized
sentence. -/
theorem chunk_size_bound_fails_with_overlap :
    (chunk_text
        [⟨1, (List.replicate 800 'a') ++ ". ".toList ++ (List.replicate 800 'b')
              ++ ". ".toList ++ "Cats are mammals today".toList⟩]
        1000 100 (fun _ => "deadbeef")).map (fun c => (c.content.length, c.sentences.length))
      = [(800, 1), (1601, 2), (823, 2)] := by
  decide

set_option maxRecDepth 200000 in
/-- C3 (witness): a single 1001-character sentence becomes its own chunk;
the bound theorem applied to it yields the single-sentence exception. -/
theorem chunk_size_bound_without_overlap_witness :
    (⟨"chunk_0_deadbeef", 0, List.replicate 1001 'a', 1,
        [List.replicate 1001 'a']⟩ : Chunk)
      ∈ chunk_text [⟨1, (List.replicate 1001 'a') ++ ". Dogs are mammals too".toList⟩]
          1000 0 (fun _ => "deadbeef") ∧
    ((⟨"chunk_0_deadbeef", 0, List.replicate 1001 'a', 1,
        [List.replicate 1001 'a']⟩ : Chunk).content.length ≤ 1000 ∨
      (⟨"chunk_0_deadbeef", 0, List.replicate 1001 'a', 1,
        [List.replicate 1001 'a']⟩ : Chunk).sentences
        = [(⟨"chunk_0_deadbeef", 0, List.replicate 1001 'a', 1,
            [List.replicate 1001 'a']⟩ : Chunk).content]) :=
  ⟨by decide,
   chunk_size_bound_without_overlap
     [⟨1, (List.replicate 1001 'a') ++ ". Dogs are mammals too".toList⟩]
     (fun _ => "deadbeef") _ (by decide)⟩

theorem chain_append_link (k : Nat) (cks : List Chunk) (L' : Chunk)
    (hk : 1 ≤ k) (h1 : List.Chain' (overlapLink k) cks)
    (h2 : ∀ L, cks.getLast? = some L →
      lastN k L.sentences <+: L'.sentences ∧ L.sentences ≠ []) :
    List.Chain' (overlapLink k) (cks ++ [L']) := by
  rw [List.chain'_append]
  refine ⟨h1, List.chain'_singleton _, ?_⟩
  intro x hx y hy
  have hy' : L' = y := by simpa using hy
  subst hy'
  obtain ⟨hpre, hne⟩ := h2 x hx
  refine ⟨hpre, ?_⟩
  have hlast : lastN k x.sentences ≠ [] := lastN_ne_nil k _ hk hne
  rcases hl : lastN k x.sentences with _ | ⟨z, zs⟩
  · exact absurd hl hlast
  · refine ⟨z, lastN_suffix_subset k _ z (by rw [hl]; simp), hpre.subset (by rw [hl]; simp)⟩

theorem chunks_nil_of_pending_nil (k : Nat) (hk : 1 ≤ k) (cks : List Chunk)
    (h2 : ∀ L, cks.getLast? = some L →
      lastN k L.sentences <+: ([] : List (List Char)) ∧ L.sentences ≠ []) :
    cks = [] := by
  rcases hl : cks.getLast? with _ | L
  · rcases cks with _ | ⟨c, cs⟩
    · rfl
    · rw [List.getLast?_eq_getLast _ (by simp)] at hl
      cases hl
  · obtain ⟨hpre, hne⟩ := h2 L hl
    have hnil : lastN k L.sentences = [] := List.prefix_nil.mp hpre
    exact absurd hnil (lastN_ne_nil k _ hk hne)

theorem chunk_overlap_step (cs co : Nat) (u : Nat → String) (p : Int)
    (hco : 0 < co) (st : ChunkState) (s : List Char)
    (hs : Stripped s ∧ s ≠ [])
    (h1 : List.Chain' (overlapLink (max 1 (co / 100))) st.chunks)
    (h2 : ∀ L, st.chunks.getLast? = some L →
      lastN (max 1 (co / 100)) L.sentences <+: st.currentSentences ∧ L.sentences ≠ [])
    (h3 : ∀ x ∈ st.currentSentences, Stripped x ∧ x ≠ [])
    (h4 : st.currentSentences = [] → st.currentChunk = [])
    (h5 : st.currentSentences ≠ [] →
      ∃ a t, st.currentChunk = a :: t ∧ a.isWhitespace = false) :
    List.Chain' (overlapLink (max 1 (co / 100))) (stepSentence cs co u p st s).chunks ∧
    (∀ L, (stepSentence cs co u p st s).chunks.getLast? = some L →
      lastN (max 1 (co / 100)) L.sentences <+: (stepSentence cs co u p st s).currentSentences
        ∧ L.sentences ≠ []) ∧
    (∀ x ∈ (stepSentence cs co u p st s).currentSentences, Stripped x ∧ x ≠ []) ∧
    ((stepSentence cs co u p st s).currentSentences = []
      → (stepSentence cs co u p st s).currentChunk = []) ∧
    ((stepSentence cs co u p st s).currentSentences ≠ [] →
      ∃ a t, (stepSentence cs co u p st s).currentChunk = a :: t
        ∧ a.isWhitespace = false) := by
  have hk : 1 ≤ max 1 (co / 100) := le_max_left _ _
  by_cases hfit : (st.currentChunk ++ ' ' :: s).length ≤ cs
  · have hstep : stepSentence cs co u p st s =
        { st with
          currentChunk := if st.currentChunk = [] then s
                          else st.currentChunk ++ ' ' :: s,
          currentSentences := st.currentSentences ++ [s] } := by
      unfold stepSentence
      rw [if_pos hfit]
    rw [hstep]
    refine ⟨h1, ?_, ?_, ?_, ?_⟩
    · intro L hL
      obtain ⟨hpre, hne⟩ := h2 L hL
      exact ⟨hpre.trans (List.prefix_append _ _), hne⟩
    · intro x hx
      rcases List.mem_append.mp hx with hx1 | hx1
      · exact h3 x hx1
      · rw [List.mem_singleton.mp hx1]
        exact hs
    · intro hcon
      exact absurd hcon (by simp)
    · intro _
      dsimp only
      by_cases hcc : st.currentChunk = []
      · rw [if_pos hcc]
        rcases hs with ⟨hstr, hne⟩
        rcases s with _ | ⟨a, t⟩
        · exact absurd rfl hne
        · exact ⟨a, t, rfl, stripped_head a t hstr⟩
      · rw [if_neg hcc]
        have hcs : st.currentSentences ≠ [] := by
          intro hcon
          exact hcc (h4 hcon)
        obtain ⟨a, t, hc, ha⟩ := h5 hcs
        exact ⟨a, t ++ ' ' :: s, by rw [hc]; rfl, ha⟩
  · by_cases hcs : st.currentSentences = []
    · have hcur : st.currentChunk = [] := h4 hcs
      have hsave : saveChunk p u st = st := by
        unfold saveChunk
        rw [if_neg]
        rw [hcur]
        simp [pyStrip]
      have hcks : st.chunks = [] := by
        refine chunks_nil_of_pending_nil (max 1 (co / 100)) hk st.chunks ?_
        intro L hL
        have := h2 L hL
        rw [hcs] at this
        exact this
      have hstep : stepSentence cs co u p st s =
          { saveChunk p u st with currentChunk := s, currentSentences := [s] } := by
        unfold stepSentence
        rw [if_neg hfit]
        have hcond : ¬ (0 < co ∧ st.currentSentences ≠ []) := by
          rw [hcs]
          simp
        rw [if_neg hcond]
        rfl
      rw [hstep, hsave]
      refine ⟨by rw [hcks]; exact List.chain'_nil, ?_, ?_, ?_, ?_⟩
      · intro L hL
        rw [hcks] at hL
        cases hL
      · intro x hx
        rw [List.mem_singleton.mp hx]
        exact hs
      · intro hcon
        cases hcon
      · intro _
        rcases hs with ⟨hstr, hne⟩
        rcases s with _ | ⟨a, t⟩
        · exact absurd rfl hne
        · exact ⟨a, t, rfl, stripped_head a t hstr⟩
    · obtain ⟨a, t, hc, ha⟩ := h5 hcs
      have hguard : pyStrip st.currentChunk ≠ [] := by
        rw [hc]
        exact pyStrip_ne_nil a t ha
      have hsave : saveChunk p u st =
          { st with
            chunks := st.chunks ++
              [{ chunkId := mkChunkId st.chunkIndex (u st.chunkIndex),
                 chunkIndex := st.chunkIndex,
                 content := pyStrip st.currentChunk,
                 pageNumber := p,
                 sentences := st.currentSentences }],
            chunkIndex := st.chunkIndex + 1 } := by
        unfold saveChunk
        rw [if_pos hguard]
      have hcond : (0 < co ∧ st.currentSentences ≠ []) := ⟨hco, hcs⟩
      have hseed : ∀ seed,
          (seed = if max 1 (co / 100) < st.currentSentences.length
                  then lastN (max 1 (co / 100)) st.currentSentences
                  else st.currentSentences) →
          lastN (max 1 (co / 100)) st.currentSentences <+: seed ++ [s] ∧
          (∀ x ∈ seed, x ∈ st.currentSentences) ∧ seed ≠ [] := by
        intro seed hdef
        by_cases hlt : max 1 (co / 100) < st.currentSentences.length
        · rw [if_pos hlt] at hdef
          subst hdef
          exact ⟨List.prefix_append _ _, lastN_suffix_subset _ _,
            lastN_ne_nil _ _ hk hcs⟩
        · rw [if_neg hlt] at hdef
          subst hdef
          have hlast : lastN (max 1 (co / 100)) st.currentSentences
              = st.currentSentences := by
            unfold lastN
            rw [Nat.sub_eq_zero_of_le (le_of_not_lt hlt), List.drop_zero]
          rw [hlast]
          exact ⟨List.prefix_append _ _, fun x hx => hx, hcs⟩
      have hstep : stepSentence cs co u p st s =
          { saveChunk p u st with
            currentChunk :=
              if joinSp (if max 1 (co / 100) < st.currentSentences.length
                         then lastN (max 1 (co / 100)) st.currentSentences
                         else st.currentSentences) = [] then s
              else joinSp (if max 1 (co / 100) < st.currentSentences.length
                           then lastN (max 1 (co / 100)) st.currentSentences
                           else st.currentSentences) ++ ' ' :: s,
            currentSentences :=
              (if max 1 (co / 100) < st.currentSentences.length
               then lastN (max 1 (co / 100)) st.currentSentences
               else st.currentSentences) ++ [s] } := by
        unfold stepSentence
        rw [if_neg hfit]
        rw [if_pos hcond]
      obtain ⟨hseedpre, hseedsub, hseedne⟩ := hseed _ rfl
      have hseedstr : ∀ x ∈ (if max 1 (co / 100) < st.currentSentences.length
          then lastN (max 1 (co / 100)) st.currentSentences
          else st.currentSentences), Stripped x ∧ x ≠ [] :=
        fun x hx => h3 x (hseedsub x hx)
      rw [hstep, hsave]
      refine ⟨?_, ?_, ?_, ?_, ?_⟩
      · refine chain_append_link _ _ _ hk h1 ?_
        intro L hL
        exact h2 L hL
      · intro L hL
        have hL' : { chunkId := mkChunkId st.chunkIndex (u st.chunkIndex),
                     chunkIndex := st.chunkIndex,
                     content := pyStrip st.currentChunk,
                     pageNumber := p,
                     sentences := st.currentSentences } = L := by
          simpa using hL
        subst hL'
        exact ⟨hseedpre, hcs⟩
      · intro x hx
        rcases List.mem_append.mp hx with hx1 | hx1
        · exact hseedstr x hx1
        · rw [List.mem_singleton.mp hx1]
          exact hs
      · intro hcon
        exact absurd hcon (by simp)
      · intro _
        dsimp only
        rcases hseednil : (if max 1 (co / 100) < st.currentSentences.length
            then lastN (max 1 (co / 100)) st.currentSentences
            else st.currentSentences) with _ | ⟨x0, r⟩
        · exact absurd hseednil hseedne
        · obtain ⟨rest, hjoin⟩ := joinSp_cons x0 r
          have hx0 := hseedstr x0 (by rw [hseednil]; simp)
          rcases hx0 with ⟨hx0str, hx0ne⟩
          rcases x0 with _ | ⟨a0, t0⟩
          · exact absurd rfl hx0ne
          · have ha0 := stripped_head a0 t0 hx0str
            rw [hjoin]
            have hjne : (a0 :: t0) ++ rest ≠ [] := by simp
            rw [if_neg hjne]
            exact ⟨a0, t0 ++ rest ++ ' ' :: s, by simp, ha0⟩

theorem chunk_overlap_fold (cs co : Nat) (u : Nat → String) (p : Int) (hco : 0 < co) :
    ∀ (sents : List (List Char)) (st : ChunkState),
    (∀ x ∈ sents, Stripped x ∧ x ≠ []) →
    List.Chain' (overlapLink (max 1 (co / 100))) st.chunks →
    (∀ L, st.chunks.getLast? = some L →
      lastN (max 1 (co / 100)) L.sentences <+: st.currentSentences ∧ L.sentences ≠ []) →
    (∀ x ∈ st.currentSentences, Stripped x ∧ x ≠ []) →
    (st.currentSentences = [] → st.currentChunk = []) →
    (st.currentSentences ≠ [] →
      ∃ a t, st.currentChunk = a :: t ∧ a.isWhitespace = false) →
    List.Chain' (overlapLink (max 1 (co / 100)))
      ((sents.foldl (stepSentence cs co u p) st).chunks) ∧
    (∀ L, (sents.foldl (stepSentence cs co u p) st).chunks.getLast? = some L →
      lastN (max 1 (co / 100)) L.sentences
          <+: (sents.foldl (stepSentence cs co u p) st).currentSentences
        ∧ L.sentences ≠ []) ∧
    (∀ x ∈ (sents.foldl (stepSentence cs co u p) st).currentSentences,
      Stripped x ∧ x ≠ []) ∧
    ((sents.foldl (stepSentence cs co u p) st).currentSentences = []
      → (sents.foldl (stepSentence cs co u p) st).currentChunk = []) ∧
    ((sents.foldl (stepSentence cs co u p) st).currentSentences ≠ [] →
      ∃ a t, (sents.foldl (stepSentence cs co u p) st).currentChunk = a :: t
        ∧ a.isWhitespace = false) := by
  intro sents
  induction sents with
  | nil =>
    intro st _ h1 h2 h3 h4 h5
    exact ⟨h1, h2, h3, h4, h5⟩
  | cons s rest ih =>
    intro st hstr h1 h2 h3 h4 h5
    have hstep := chunk_overlap_step cs co u p hco st s
      (hstr s (List.mem_cons_self _ _)) h1 h2 h3 h4 h5
    exact ih _ (fun x hx => hstr x (List.mem_cons_of_mem _ hx))
      hstep.1 hstep.2.1 hstep.2.2.1 hstep.2.2.2.1 hstep.2.2.2.2

theorem saveChunk_chain (k : Nat) (hk : 1 ≤ k) (p : Int) (u : Nat → String)
    (st : ChunkState)
    (h1 : List.Chain' (overlapLink k) st.chunks)
    (h2 : ∀ L, st.chunks.getLast? = some L →
      lastN k L.sentences <+: st.currentSentences ∧ L.sentences ≠ [])
    (h4 : st.currentSentences = [] → st.currentChunk = [])
    (h5 : st.currentSentences ≠ [] →
      ∃ a t, st.currentChunk = a :: t ∧ a.isWhitespace = false) :
    List.Chain' (overlapLink k) (saveChunk p u st).chunks := by
  by_cases hcs : st.currentSentences = []
  · have hcur := h4 hcs
    have hsave : saveChunk p u st = st := by
      unfold saveChunk
      rw [if_neg]
      rw [hcur]
      simp [pyStrip]
    rw [hsave]
    exact h1
  · obtain ⟨a, t, hc, ha⟩ := h5 hcs
    have hguard : pyStrip st.currentChunk ≠ [] := by
      rw [hc]
      exact pyStrip_ne_nil a t ha
    have hsave : saveChunk p u st =
        { st with
          chunks := st.chunks ++
            [{ chunkId := mkChunkId st.chunkIndex (u st.chunkIndex),
               chunkIndex := st.chunkIndex,
               content := pyStrip st.currentChunk,
               pageNumber := p,
               sentences := st.currentSentences }],
          chunkIndex := st.chunkIndex + 1 } := by
      unfold saveChunk
      rw [if_pos hguard]
    rw [hsave]
    exact chain_append_link k st.chunks _ hk h1 (fun L hL => h2 L hL)

/-- C6: when `chunk_overlap > 0` and a page yields more than one chunk,
every pair of consecutive chunks produced from that page is linked: the
succeeding chunk's sentences begin with the last `max(1, chunk_overlap/100)`
sentences of the chunk it follows, so the two share at least one
sentence. -/
theorem chunk_overlap_links (cs co : Nat) (u : Nat → String) (page : Page) (i : Nat)
    (hco : 0 < co) :
    List.Chain' (overlapLink (max 1 (co / 100))) (chunkPage cs co u page i).1 := by
  unfold chunkPage
  have hsent : ∀ x ∈ split_into_sentences page.text, Stripped x ∧ x ≠ [] := by
    intro x hx
    have h := mem_split_into_sentences page.text x hx
    exact ⟨h.1, h.2.1⟩
  have hfold := chunk_overlap_fold cs co u page.pageNumber hco
    (split_into_sentences page.text) ⟨[], i, [], []⟩ hsent List.chain'_nil
    (by intro L hL; simp at hL) (by intro x hx; cases hx)
    (fun _ => rfl) (by intro h; exact absurd rfl h)
  exact saveChunk_chain _ (le_max_left _ _) page.pageNumber u _
    hfold.1 hfold.2.1 hfold.2.2.2.1 hfold.2.2.2.2

set_option maxRecDepth 200000 in
set_option maxHeartbeats 2000000 in
/-- C6 (witness): a page whose three sentences have 30 characters each at
chunk size 60 and overlap 100 yields three chunks, and the theorem links
each consecutive pair: every later chunk starts with the last sentence of
the chunk it follows. -/
theorem chunk_overlap_links_witness :
    (chunkPage 60 100 (fun _ => "deadbeef")
        ⟨1, (List.replicate 30 'a') ++ ". ".toList ++ (List.replicate 30 'b')
             ++ ". ".toList ++ (List.replicate 30 'c')⟩ 0).1.length = 3 ∧
    List.Chain' (overlapLink (max 1 (100 / 100)))
      (chunkPage 60 100 (fun _ => "deadbeef")
        ⟨1, (List.replicate 30 'a') ++ ". ".toList ++ (List.replicate 30 'b')
             ++ ". ".toList ++ (List.replicate 30 'c')⟩ 0).1 :=
  ⟨by decide,
   chunk_overlap_links 60 100 (fun _ => "deadbeef")
      ⟨1, (List.replicate 30 'a') ++ ". ".toList ++ (List.replicate 30 'b')
           ++ ". ".toList ++ (List.replicate 30 'c')⟩ 0 (by decide)⟩

theorem scopedRows_nil (ids : Option (List String)) : scopedRows [] ids = [] := by
  rcases ids with _ | ids
  · rfl
  · by_cases h : ids ≠ []
    · simp only [scopedRows, if_pos h, List.filter_nil]
    · simp only [scopedRows, if_neg h]

theorem search_similar_chunks_nil (cosine : List ℚ → List ℚ → Option ℚ) (fo : Bool)
    (qe : List ℚ) (ids : Option (List String)) (lim : Nat) (θ : ℚ) :
    search_similar_chunks cosine [] fo qe ids lim θ = [] := by
  cases fo
  · rfl
  · rw [search_similar_chunks_true, scopedRows_nil]
    rfl

theorem generate_response_ne_nil (llm : List Char → Except String (List Char))
    (q : List Char) (cks : List SearchHit) (h : cks ≠ []) :
    generate_response llm q cks =
      match llm (ragPrompt q cks) with
      | Except.error e => Except.error e
      | Except.ok llmAnswer =>
        Except.ok
          { response := llmAnswer,
            citations := cks.map (fun c =>
              { chunkId := c.chunkId, pageNumber := c.pageNumber,
                similarity := c.similarity }),
            hasContext := true } := by
  unfold generate_response
  rw [if_neg h]

/-- C8 (amended): in `process_chat_message`, `has_context = true` implies
the similarity search produced at least one hit; when the LLM call and the
message save both succeed, `has_context = true` holds exactly when the
search produced at least one hit; and a query against an empty index
yields no hits and `has_context = false`.  (When the LLM call or the save
raises, the outer `except` reports `has_context = false` even though hits
were found — see the counterexample.) -/
theorem chat_has_context_iff {V : Type} (cosine : List ℚ → List ℚ → Option ℚ)
    (fit : List (List Char) → Option V)
    (transform : V → List (List Char) → Option (List (List ℚ)))
    (llm : List Char → Except String (List Char)) (saveResult : Except String String)
    (db : List StoredRecord) (corpusFetchOk searchFetchOk : Bool)
    (message : List Char) (documentId : String) :
    ((process_chat_message cosine fit transform llm saveResult db corpusFetchOk
        searchFetchOk message documentId).hasContext = true →
      search_similar_chunks cosine db searchFetchOk
        (generate_query_embedding fit transform
          (if corpusFetchOk then some (corpusTexts db) else none) message)
        (if documentId ≠ "" then some [documentId] else none) 5 (1/100) ≠ []) ∧
    ((∀ p, ∃ r, llm p = Except.ok r) → (∃ m, saveResult = Except.ok m) →
      ((process_chat_message cosine fit transform llm saveResult db corpusFetchOk
          searchFetchOk message documentId).hasContext = true ↔
        search_similar_chunks cosine db searchFetchOk
          (generate_query_embedding fit transform
            (if corpusFetchOk then some (corpusTexts db) else none) message)
          (if documentId ≠ "" then some [documentId] else none) 5 (1/100) ≠ [])) ∧
    (db = [] →
      search_similar_chunks cosine db searchFetchOk
        (generate_query_embedding fit transform
          (if corpusFetchOk then some (corpusTexts db) else none) message)
        (if documentId ≠ "" then some [documentId] else none) 5 (1/100) = [] ∧
      (process_chat_message cosine fit transform llm saveResult db corpusFetchOk
        searchFetchOk message documentId).hasContext = false) := by
  by_cases hhits : search_similar_chunks cosine db searchFetchOk
      (generate_query_embedding fit transform
        (if corpusFetchOk then some (corpusTexts db) else none) message)
      (if documentId ≠ "" then some [documentId] else none) 5 (1/100) = []
  · have hproc : (process_chat_message cosine fit transform llm saveResult db corpusFetchOk
        searchFetchOk message documentId).hasContext = false := by
      unfold process_chat_message
      dsimp only
      rw [hhits]
      rcases saveResult with e | m
      · rfl
      · rfl
    refine ⟨?_, ?_, ?_⟩
    · intro hcon
      rw [hproc] at hcon
      cases hcon
    · intro _ _
      rw [hproc]
      constructor
      · intro hcon
        cases hcon
      · intro hne
        exact absurd hhits hne
    · intro _
      exact ⟨hhits, hproc⟩
  · refine ⟨fun _ => hhits, ?_, ?_⟩
    · intro hllm hsave
      obtain ⟨m, hm⟩ := hsave
      have hproc : (process_chat_message cosine fit transform llm saveResult db corpusFetchOk
          searchFetchOk message documentId).hasContext = true := by
        unfold process_chat_message
        dsimp only
        rw [generate_response_ne_nil llm message _ hhits]
        obtain ⟨r, hr⟩ := hllm (ragPrompt message
          (search_similar_chunks cosine db searchFetchOk
            (generate_query_embedding fit transform
              (if corpusFetchOk then some (corpusTexts db) else none) message)
            (if documentId ≠ "" then some [documentId] else none) 5 (1/100)))
        rw [hr, hm]
      rw [hproc]
      exact ⟨fun _ => hhits, fun _ => rfl⟩
    · intro hdb
      subst hdb
      exact absurd (search_similar_chunks_nil cosine searchFetchOk _ _ 5 (1/100)) hhits

/-- C8 (witness): with a successful LLM and save, an empty index gives no
hits and `has_context = false`. -/
theorem chat_has_context_iff_witness :
    search_similar_chunks (fun _ _ => some 1) [] true
      (generate_query_embedding (fun _ => some ()) (fun _ _ => some [[(1:ℚ)]])
        (if true then some (corpusTexts []) else none) ['h', 'i'])
      (if ("doc1" : String) ≠ "" then some ["doc1"] else none) 5 (1/100) = [] ∧
    (process_chat_message (fun _ _ => some 1) (fun _ => some ())
      (fun _ _ => some [[(1:ℚ)]]) (fun p => Except.ok p) (Except.ok "mid") [] true true
      ['h', 'i'] "doc1").hasContext = false :=
  (chat_has_context_iff (fun _ _ => some 1) (fun _ => some ())
    (fun _ _ => some [[(1:ℚ)]]) (fun p => Except.ok p) (Except.ok "mid") [] true true
    ['h', 'i'] "doc1").2.2 rfl

/-- C8 (counterexample): one stored record, a query whose embedding
matches it, and an LLM that raises: the search returns a hit, yet the
answer path's outer `except` reports `has_context = false` — contradicting
"has_context = true exactly when the search produced at least one hit". -/
theorem chat_context_lost_on_llm_failure :
    search_similar_chunks (fun _ _ => some 1)
        [⟨"doc1", "chunk_0_aaaaaaaa", 0, "Cats are mammals".toList, some [1], some 1⟩] true
        (generate_query_embedding (fun _ => some ()) (fun _ _ => some [[(1:ℚ)]])
          (some (corpusTexts
            [⟨"doc1", "chunk_0_aaaaaaaa", 0, "Cats are mammals".toList, some [1], some 1⟩]))
          "What are cats".toList)
        (some ["doc1"]) 5 (1/100) ≠ [] ∧
    (process_chat_message (fun _ _ => some 1) (fun _ => some ())
      (fun _ _ => some [[(1:ℚ)]]) (fun _ => Except.error "llm down") (Except.ok "mid")
      [⟨"doc1", "chunk_0_aaaaaaaa", 0, "Cats are mammals".toList, some [1], some 1⟩]
      true true "What are cats".toList "doc1").hasContext = false := by
  have hq : ((100:ℚ))⁻¹ ≤ 1 := by norm_num
  constructor
  · simp [search_similar_chunks, scopedRows, collectHits, cosine_similarity_score,
      generate_query_embedding, corpusTexts, List.mergeSort_singleton, hq]
  · simp [process_chat_message, search_similar_chunks, scopedRows, collectHits,
      cosine_similarity_score, generate_query_embedding, corpusTexts,
      generate_response, errorReply, List.mergeSort_singleton, hq]

end DocChat

